import Mathlib

/-!
Verification development for `src/architectures.py` of the
Contrastive_PLM_DTI repository.

The file shallowly embeds the tensor computations of the architecture
module family (distance metrics, projection scorers, concatenation
scorers) over lists of real numbers:

* a batch of vectors (a rank-2 tensor of shape `(n, d)`) is a
  `List (List ℝ)` of `n` rows of length `d`;
* a tensor result is a `Tensor`: an explicit shape together with the
  row-major flattened data, which lets `squeeze` be modelled exactly as
  in the source (dropping every dimension of size 1 from the shape);
* the global random-number generator used by `nn.Dropout` is an explicit
  boolean draw stream with a position (a fixed seed fixes the stream);
  every architecture `forward` threads this state exactly where the
  source layers consume randomness;
* `nn.BatchNorm1d` carries its running statistics explicitly: the
  training-mode forward normalizes with the biased batch statistics and
  returns updated running statistics (momentum 0.1, unbiased variance),
  as the source framework does.

Real-valued layer arithmetic (`Real.sqrt`, `Real.exp`, `Real.tanh`) is
modelled with exact real numbers rather than floating point.
-/

noncomputable section

/-! ## Vector primitives -/

/-- Dot product of two vectors (`torch` reduces over the common length). -/
def dotL (x y : List ℝ) : ℝ := (List.zipWith (fun a b => a * b) x y).sum

/-- Sum of squares of the entries of a vector. -/
def sumSq (x : List ℝ) : ℝ := (x.map (fun a => a * a)).sum

/-- Euclidean norm of a vector. -/
def l2norm (x : List ℝ) : ℝ := Real.sqrt (sumSq x)

/-- The `eps` guard of `nn.CosineSimilarity` (default `1e-8`). -/
def cosEps : ℝ := 1 / 100000000

/-- Per-sample cosine similarity, the formula of `nn.CosineSimilarity`:
`x1 . x2 / max (‖x1‖ * ‖x2‖) eps`. -/
def cosineSim1 (x y : List ℝ) : ℝ := dotL x y / max (l2norm x * l2norm y) cosEps

/-- Per-pair L2 distance between two vectors, an entry of `torch.cdist`. -/
def dist2 (x y : List ℝ) : ℝ := Real.sqrt (sumSq (List.zipWith (fun a b => a - b) x y))

/-- `nn.ReLU` on one entry. -/
def relu (x : ℝ) : ℝ := max x 0

/-- `nn.Sigmoid` on one entry. -/
def sigmoid (x : ℝ) : ℝ := 1 / (1 + Real.exp (-x))

/-- `nn.Linear` on one sample: each output entry is a weight-row dot the
input plus the matching bias entry (`y = x Aᵀ + b`). -/
def matVec (W : List (List ℝ)) (b : List ℝ) (x : List ℝ) : List ℝ :=
  List.zipWith (fun row bi => dotL row x + bi) W b

/-- One dense layer followed by an elementwise activation, the
`nn.Sequential(nn.Linear(..), activation())` projector pattern, applied
to a single sample. -/
def projRow (W : List (List ℝ)) (b : List ℝ) (act : ℝ → ℝ) (x : List ℝ) : List ℝ :=
  (matVec W b x).map act

/-! ## Tensors, `squeeze`, and reshaping -/

/-- A tensor: its shape and its row-major flattened data. -/
structure Tensor where
  shape : List Nat
  data : List ℝ

/-- A rank-1 tensor from a vector. -/
def Tensor.ofVec (v : List ℝ) : Tensor := ⟨[v.length], v⟩

/-- A rank-2 tensor from a rectangular list of rows. -/
def Tensor.ofMat (m : List (List ℝ)) : Tensor :=
  ⟨[m.length, (m.headD []).length], m.flatten⟩

/-- A rank-3 tensor from a nested list. -/
def Tensor.ofMat3 (t : List (List (List ℝ))) : Tensor :=
  ⟨[t.length, (t.headD []).length, ((t.headD []).headD []).length],
   ((t.map (fun m => m.flatten)).flatten)⟩

/-- `torch.Tensor.squeeze()`: remove every dimension of size 1. -/
def Tensor.squeeze (t : Tensor) : Tensor :=
  ⟨t.shape.filter (fun d => d != 1), t.data⟩

/-- `x.view(n, a, b)` on the flat data of a tensor: index remapping into a
rank-3 nested list, entry `[i][j][k]` reading flat position `(i*a+j)*b+k`. -/
def view3 (n a b : Nat) (d : List ℝ) : List (List (List ℝ)) :=
  (List.range n).map (fun i =>
    (List.range a).map (fun j =>
      (List.range b).map (fun k => d.getD ((i * a + j) * b + k) 0)))

/-- Number of columns of a (rectangular) matrix. -/
def numCols (M : List (List ℝ)) : Nat := (M.headD []).length

/-- Matrix product of two nested-list matrices. -/
def matMulL (M N : List (List ℝ)) : List (List ℝ) :=
  M.map (fun row =>
    (List.range (numCols N)).map (fun k => dotL row (N.map (fun nrow => nrow.getD k 0))))

/-- `torch.bmm`: batched matrix product. -/
def bmm (A B : List (List (List ℝ))) : List (List (List ℝ)) :=
  List.zipWith matMulL A B

/-! ## Random state and the stateful layers -/

/-- The global RNG of the framework: a boolean keep/drop draw stream and
the current position in it. A fixed seed fixes `stream`; each Bernoulli
draw advances `pos`. -/
structure RNG where
  stream : Nat → Bool
  pos : Nat

/-- `nn.Dropout(p=0.5)` on one sample in training mode: each entry draws
one Bernoulli keep/drop; kept entries are rescaled by `1/(1-p) = 2`.
In eval mode it is the identity and draws nothing. -/
def dropoutVec (training : Bool) (x : List ℝ) (r : RNG) : List ℝ × RNG :=
  if training then
    (List.zipWith (fun i a => if r.stream (r.pos + i) then 2 * a else 0)
      (List.range x.length) x,
     ⟨r.stream, r.pos + x.length⟩)
  else (x, r)

/-- `nn.Dropout(p=0.5)` on a whole batch, consuming draws row-major. -/
def dropoutRows (training : Bool) : List (List ℝ) → RNG → List (List ℝ) × RNG
  | [], r => ([], r)
  | x :: xs, r =>
    let p := dropoutVec training x r
    let q := dropoutRows training xs p.2
    (p.1 :: q.1, q.2)

/-- Running statistics owned by one `nn.BatchNorm1d` instance. -/
structure BNState where
  runMean : List ℝ
  runVar : List ℝ

/-- The `eps` of `nn.BatchNorm1d` (default `1e-5`). -/
def bnEps : ℝ := 1 / 100000

/-- The `momentum` of `nn.BatchNorm1d` (default `0.1`). -/
def bnMomentum : ℝ := 1 / 10

/-- Column `j` of a batch. -/
def colGetD (xs : List (List ℝ)) (j : Nat) : List ℝ := xs.map (fun row => row.getD j 0)

/-- Mean of a vector. -/
def meanL (v : List ℝ) : ℝ := v.sum / v.length

/-- Biased (population) variance, used to normalize in training mode. -/
def biasedVar (v : List ℝ) : ℝ :=
  ((v.map (fun a => (a - meanL v) * (a - meanL v))).sum) / v.length

/-- Unbiased (sample) variance, used for the running-variance update. -/
def unbiasedVar (v : List ℝ) : ℝ :=
  ((v.map (fun a => (a - meanL v) * (a - meanL v))).sum) / ((v.length : ℝ) - 1)

/-- `nn.BatchNorm1d(numFeatures)` with affine weights `γ, β`.  Training
mode normalizes every column with the biased batch statistics and
returns momentum-updated running statistics; eval mode normalizes with
the stored running statistics and leaves them unchanged. -/
def batchNorm1d (numFeatures : Nat) (γ β : List ℝ) (training : Bool)
    (s : BNState) (xs : List (List ℝ)) : List (List ℝ) × BNState :=
  if training then
    (xs.map (fun row => (List.range numFeatures).map (fun j =>
        γ.getD j 1 * ((row.getD j 0 - meanL (colGetD xs j)) /
          Real.sqrt (biasedVar (colGetD xs j) + bnEps)) + β.getD j 0)),
     ⟨(List.range numFeatures).map (fun j =>
        (1 - bnMomentum) * s.runMean.getD j 0 + bnMomentum * meanL (colGetD xs j)),
      (List.range numFeatures).map (fun j =>
        (1 - bnMomentum) * s.runVar.getD j 1 + bnMomentum * unbiasedVar (colGetD xs j))⟩)
  else
    (xs.map (fun row => (List.range numFeatures).map (fun j =>
        γ.getD j 1 * ((row.getD j 0 - s.runMean.getD j 0) /
          Real.sqrt (s.runVar.getD j 1 + bnEps)) + β.getD j 0)), s)

/-! ## The LSTM of `LSTMCosine` -/

/-- Weights of one direction of one `nn.LSTM` layer. -/
structure LSTMWeights where
  wih : List (List ℝ)
  whh : List (List ℝ)
  bih : List ℝ
  bhh : List ℝ

/-- One LSTM cell step (`i, f, g, o` gate order as in `torch`). -/
def lstmCell (H : Nat) (w : LSTMWeights) (x h c : List ℝ) : List ℝ × List ℝ :=
  let g := List.zipWith (fun a b => a + b) (matVec w.wih w.bih x) (matVec w.whh w.bhh h)
  let gi := (g.take H).map sigmoid
  let gf := ((g.drop H).take H).map sigmoid
  let gg := ((g.drop (2 * H)).take H).map Real.tanh
  let go := ((g.drop (3 * H)).take H).map sigmoid
  let c2 := List.zipWith (fun a b => a + b)
    (List.zipWith (fun a b => a * b) gf c)
    (List.zipWith (fun a b => a * b) gi gg)
  (List.zipWith (fun a b => a * b) go (c2.map Real.tanh), c2)

/-- Run one LSTM direction over a sequence, returning the per-step hidden
states and the final hidden and cell state. -/
def lstmRun (H : Nat) (w : LSTMWeights) :
    List (List ℝ) → List ℝ → List ℝ → List (List ℝ) × List ℝ × List ℝ
  | [], h, c => ([], h, c)
  | x :: xs, h, c =>
    let s := lstmCell H w x h c
    let rest := lstmRun H w xs s.1 s.2
    (s.1 :: rest.1, rest.2)

/-- The two directions of one bidirectional LSTM layer. -/
structure BiLSTMLayer where
  fwd : LSTMWeights
  bwd : LSTMWeights

/-- One bidirectional layer: forward pass over the sequence, backward
pass over the reversed sequence; per-step outputs are the concatenation
of the two directions, and the layer yields both final hidden states. -/
def biLayer (H : Nat) (lw : BiLSTMLayer) (xs : List (List ℝ)) :
    List (List ℝ) × List ℝ × List ℝ :=
  let zero := List.replicate H (0 : ℝ)
  let f := lstmRun H lw.fwd xs zero zero
  let b := lstmRun H lw.bwd xs.reverse zero zero
  (List.zipWith (fun u v => u ++ v) f.1 b.1.reverse, f.2.1, b.2.1)

/-- A stacked bidirectional LSTM on one sample: returns the top-layer
per-step outputs and the final hidden states in `h_n` order
(layer-major, direction-minor), as `torch` lays out `h_n`. -/
def lstmStack (H : Nat) : List BiLSTMLayer → List (List ℝ) → List (List ℝ) × List (List ℝ)
  | [], xs => (xs, [])
  | lw :: ls, xs =>
    let r := biLayer H lw xs
    let rest := lstmStack H ls r.1
    (rest.1, r.2.1 :: r.2.2 :: rest.2)

/-! ## Distance metric modules -/

/-- The tag of one `DISTANCE_METRICS` entry. -/
inductive MetricKind where
  | cosine
  | squaredCosine
  | euclidean
  | squaredEuclidean
deriving DecidableEq

/-- The `DISTANCE_METRICS` dictionary of the source, as an association
list from metric name to metric. -/
def DISTANCE_METRICS : List (String × MetricKind) :=
  [("Cosine", MetricKind.cosine),
   ("SquaredCosine", MetricKind.squaredCosine),
   ("Euclidean", MetricKind.euclidean),
   ("SquaredEuclidean", MetricKind.squaredEuclidean)]

/-- Python dictionary subscript `DISTANCE_METRICS[name]`: `none` models
the `KeyError` raised on an unknown key. -/
def lookupMetric (s : String) : Option MetricKind := DISTANCE_METRICS.lookup s

/-- The batch computation of `Cosine.forward`:
`nn.CosineSimilarity()(x1, x2)`, one similarity per matching row pair. -/
def cosineFwdT (x1 x2 : List (List ℝ)) : Tensor :=
  Tensor.ofVec (List.zipWith cosineSim1 x1 x2)

/-- The batch computation of `SquaredCosine.forward`:
`nn.CosineSimilarity()(x1, x2) ** 2`. -/
def squaredCosineFwdT (x1 x2 : List (List ℝ)) : Tensor :=
  Tensor.ofVec ((List.zipWith cosineSim1 x1 x2).map (fun v => v * v))

/-- `torch.cdist(x1, x2, p=2)`: the full pairwise distance matrix. -/
def cdistM (x1 x2 : List (List ℝ)) : List (List ℝ) :=
  x1.map (fun a => x2.map (fun b => dist2 a b))

/-- The batch computation of `Euclidean.forward`: `torch.cdist(x1, x2, p=2.0)`. -/
def euclideanFwdT (x1 x2 : List (List ℝ)) : Tensor :=
  Tensor.ofMat (cdistM x1 x2)

/-- The batch computation of `SquaredEuclidean.forward`:
`torch.cdist(x1, x2, p=2.0) ** 2` (elementwise square). -/
def squaredEuclideanFwdT (x1 x2 : List (List ℝ)) : Tensor :=
  Tensor.ofMat ((cdistM x1 x2).map (List.map (fun v => v * v)))

/-- Dispatch on a stored metric, as `self.activator(mol_proj, prot_proj)`. -/
def applyMetric : MetricKind → List (List ℝ) → List (List ℝ) → Tensor
  | MetricKind.cosine => cosineFwdT
  | MetricKind.squaredCosine => squaredCosineFwdT
  | MetricKind.euclidean => euclideanFwdT
  | MetricKind.squaredEuclidean => squaredEuclideanFwdT

/-- `Cosine.forward`, as a module call under the global RNG (the layer
draws nothing, so the state is returned untouched). -/
def Cosine.forward (x1 x2 : List (List ℝ)) (r : RNG) : Tensor × RNG :=
  (cosineFwdT x1 x2, r)

/-- `SquaredCosine.forward` as a module call under the global RNG. -/
def SquaredCosine.forward (x1 x2 : List (List ℝ)) (r : RNG) : Tensor × RNG :=
  (squaredCosineFwdT x1 x2, r)

/-- `Euclidean.forward` as a module call under the global RNG. -/
def Euclidean.forward (x1 x2 : List (List ℝ)) (r : RNG) : Tensor × RNG :=
  (euclideanFwdT x1 x2, r)

/-- `SquaredEuclidean.forward` as a module call under the global RNG. -/
def SquaredEuclidean.forward (x1 x2 : List (List ℝ)) (r : RNG) : Tensor × RNG :=
  (squaredEuclideanFwdT x1 x2, r)

/-! ## Projection scorers -/

/-- Learned parameters of a `SimpleCosine` instance. -/
structure SimpleCosine.Cfg where
  molW : List (List ℝ)
  molB : List ℝ
  protW : List (List ℝ)
  protB : List ℝ
  act : ℝ → ℝ
  metric : MetricKind

/-- `SimpleCosine.__init__`: the projectors are built from the layer
parameters; the only failing operation is the
`DISTANCE_METRICS[distance_metric]` subscript, so construction yields
`none` exactly on an unknown metric name. -/
def SimpleCosine.init (molW : List (List ℝ)) (molB : List ℝ)
    (protW : List (List ℝ)) (protB : List ℝ) (act : ℝ → ℝ)
    (distance_metric : String) : Option SimpleCosine.Cfg :=
  (lookupMetric distance_metric).map (fun m => ⟨molW, molB, protW, protB, act, m⟩)

/-- `SimpleCosine.forward`: project both embeddings row-wise and apply
the selected metric. -/
def SimpleCosine.forward (c : SimpleCosine.Cfg) (mol_emb prot_emb : List (List ℝ))
    (r : RNG) : Tensor × RNG :=
  (applyMetric c.metric
     (mol_emb.map (projRow c.molW c.molB c.act))
     (prot_emb.map (projRow c.protW c.protB c.act)), r)

/-- Learned parameters of a `CosineBatchNorm` instance. -/
structure CosineBatchNorm.Cfg where
  latent : Nat
  molW : List (List ℝ)
  molB : List ℝ
  protW : List (List ℝ)
  protB : List ℝ
  molGamma : List ℝ
  molBeta : List ℝ
  protGamma : List ℝ
  protBeta : List ℝ
  act : ℝ → ℝ
  metric : MetricKind

/-- Instance-owned state of a `CosineBatchNorm`: the running statistics
of its two `nn.BatchNorm1d` layers. -/
structure CosineBatchNorm.State where
  molBN : BNState
  protBN : BNState

/-- `CosineBatchNorm.__init__`: as for `SimpleCosine`, only the
dictionary subscript can fail. -/
def CosineBatchNorm.init (latent : Nat) (molW : List (List ℝ)) (molB : List ℝ)
    (protW : List (List ℝ)) (protB : List ℝ)
    (molGamma molBeta protGamma protBeta : List ℝ) (act : ℝ → ℝ)
    (distance_metric : String) : Option CosineBatchNorm.Cfg :=
  (lookupMetric distance_metric).map
    (fun m => ⟨latent, molW, molB, protW, protB, molGamma, molBeta, protGamma, protBeta, act, m⟩)

/-- `CosineBatchNorm.forward`: project, batch-normalize, then apply the
selected metric; the updated running statistics are returned alongside. -/
def CosineBatchNorm.forward (c : CosineBatchNorm.Cfg) (st : CosineBatchNorm.State)
    (training : Bool) (mol_emb prot_emb : List (List ℝ)) (r : RNG) :
    Tensor × CosineBatchNorm.State × RNG :=
  let m := batchNorm1d c.latent c.molGamma c.molBeta training st.molBN
    (mol_emb.map (projRow c.molW c.molB c.act))
  let p := batchNorm1d c.latent c.protGamma c.protBeta training st.protBN
    (prot_emb.map (projRow c.protW c.protB c.act))
  (applyMetric c.metric m.1 p.1, ⟨m.2, p.2⟩, r)

/-- Learned parameters of an `LSTMCosine` instance. -/
structure LSTMCosine.Cfg where
  hiddenDim : Nat
  molW : List (List ℝ)
  molB : List ℝ
  layers : List BiLSTMLayer
  protW : List (List ℝ)
  protB : List ℝ
  act : ℝ → ℝ

/-- `LSTMCosine.forward`: the molecule embedding goes through the dense
projector; each protein sequence goes through the stacked bidirectional
LSTM, the final hidden states of all layers and directions are
concatenated (`permute(1,0,2).reshape(n, -1)` per sample) and projected
with the ReLU-activated dense layer; combined by cosine similarity. -/
def LSTMCosine.forward (c : LSTMCosine.Cfg) (mol_emb : List (List ℝ))
    (prot_emb : List (List (List ℝ))) (r : RNG) : Tensor × RNG :=
  let molP := mol_emb.map (projRow c.molW c.molB c.act)
  let protP := prot_emb.map (fun seq =>
    (matVec c.protW c.protB ((lstmStack c.hiddenDim c.layers seq).2.flatten)).map relu)
  (Tensor.ofVec (List.zipWith cosineSim1 molP protP), r)

/-- Learned parameters of a `DeepCosine` instance. -/
structure DeepCosine.Cfg where
  molW : List (List ℝ)
  molB : List ℝ
  prot1W : List (List ℝ)
  prot1B : List ℝ
  prot2W : List (List ℝ)
  prot2B : List ℝ
  act : ℝ → ℝ

/-- `DeepCosine.forward`: molecule tower as in `SimpleCosine`; protein
tower `Linear; Dropout(0.5); activation; Linear; Dropout(0.5);
activation`, consuming RNG draws in the two dropout layers; combined by
cosine similarity. -/
def DeepCosine.forward (c : DeepCosine.Cfg) (training : Bool)
    (mol_emb prot_emb : List (List ℝ)) (r : RNG) : Tensor × RNG :=
  let molP := mol_emb.map (projRow c.molW c.molB c.act)
  let h1 := prot_emb.map (matVec c.prot1W c.prot1B)
  let d1 := dropoutRows training h1 r
  let a1 := d1.1.map (List.map c.act)
  let h2 := a1.map (matVec c.prot2W c.prot2B)
  let d2 := dropoutRows training h2 d1.2
  let protP := d2.1.map (List.map c.act)
  (Tensor.ofVec (List.zipWith cosineSim1 molP protP), d2.2)

/-! ## Concatenation scorers -/

/-- Learned parameters of a `SimpleConcat` instance. -/
structure SimpleConcat.Cfg where
  fc1W : List (List ℝ)
  fc1B : List ℝ
  fc2W : List (List ℝ)
  fc2B : List ℝ
  fc3W : List (List ℝ)
  fc3B : List ℝ
  act : ℝ → ℝ

/-- `SimpleConcat.forward`: concatenate the raw embeddings along the
feature axis, run the three dense blocks (the last one
sigmoid-terminated), and `squeeze()` the `(n, 1)` result. -/
def SimpleConcat.forward (c : SimpleConcat.Cfg) (mol_emb prot_emb : List (List ℝ))
    (r : RNG) : Tensor × RNG :=
  let cat := List.zipWith (fun a b => a ++ b) mol_emb prot_emb
  let out := cat.map (fun v =>
    (matVec c.fc3W c.fc3B
      ((matVec c.fc2W c.fc2B ((matVec c.fc1W c.fc1B v).map c.act)).map c.act)).map sigmoid)
  ((Tensor.ofMat out).squeeze, r)

/-- Learned parameters of a `SeparateConcat` instance. -/
structure SeparateConcat.Cfg where
  molW : List (List ℝ)
  molB : List ℝ
  protW : List (List ℝ)
  protB : List ℝ
  act : ℝ → ℝ
  fcW : List (List ℝ)
  fcB : List ℝ

/-- `SeparateConcat.__init__`: the `distance_metric` argument is
accepted (default `None`) but never read — no operation of the body can
fail, so construction succeeds for every value of the argument. -/
def SeparateConcat.init (molW : List (List ℝ)) (molB : List ℝ)
    (protW : List (List ℝ)) (protB : List ℝ) (act : ℝ → ℝ)
    (fcW : List (List ℝ)) (fcB : List ℝ)
    (distance_metric : Option String) : Option SeparateConcat.Cfg :=
  some ⟨molW, molB, protW, protB, act, fcW, fcB⟩

/-- `SeparateConcat.forward`: project both embeddings, concatenate the
projections, apply the sigmoid-terminated dense head, `squeeze()`. -/
def SeparateConcat.forward (c : SeparateConcat.Cfg) (mol_emb prot_emb : List (List ℝ))
    (r : RNG) : Tensor × RNG :=
  let molP := mol_emb.map (projRow c.molW c.molB c.act)
  let protP := prot_emb.map (projRow c.protW c.protB c.act)
  let cat := List.zipWith (fun a b => a ++ b) molP protP
  let out := cat.map (fun v => (matVec c.fcW c.fcB v).map sigmoid)
  ((Tensor.ofMat out).squeeze, r)

/-- Learned parameters of an `AffinityEmbedConcat` instance. -/
structure AffinityEmbedConcat.Cfg where
  molW : List (List ℝ)
  molB : List ℝ
  protW : List (List ℝ)
  protB : List ℝ
  act : ℝ → ℝ
  fcW : List (List ℝ)
  fcB : List ℝ

/-- `AffinityEmbedConcat.forward`: like `SeparateConcat` but the final
dense head has no sigmoid. -/
def AffinityEmbedConcat.forward (c : AffinityEmbedConcat.Cfg)
    (mol_emb prot_emb : List (List ℝ)) (r : RNG) : Tensor × RNG :=
  let molP := mol_emb.map (projRow c.molW c.molB c.act)
  let protP := prot_emb.map (projRow c.protW c.protB c.act)
  let cat := List.zipWith (fun a b => a ++ b) molP protP
  let out := cat.map (matVec c.fcW c.fcB)
  ((Tensor.ofMat out).squeeze, r)

/-- Learned parameters of an `AffinityCoembedInner` instance
(`self.latent_size` is stored and used by the `view` calls). -/
structure AffinityCoembedInner.Cfg where
  latent : Nat
  molW : List (List ℝ)
  molB : List ℝ
  protW : List (List ℝ)
  protB : List ℝ
  act : ℝ → ℝ

/-- `AffinityCoembedInner.forward`: project both embeddings, then
`torch.bmm(mol_proj.view(-1, 1, L), prot_proj.view(-1, L, 1)).squeeze()`;
the `-1` of each `view` resolves to the flattened length divided by the
product of the remaining dimensions. -/
def AffinityCoembedInner.forward (c : AffinityCoembedInner.Cfg)
    (mol_emb prot_emb : List (List ℝ)) (r : RNG) : Tensor × RNG :=
  let molF := (mol_emb.map (projRow c.molW c.molB c.act)).flatten
  let protF := (prot_emb.map (projRow c.protW c.protB c.act)).flatten
  ((Tensor.ofMat3 (bmm
      (view3 (molF.length / (1 * c.latent)) 1 c.latent molF)
      (view3 (protF.length / (c.latent * 1)) c.latent 1 protF))).squeeze, r)

/-- Learned parameters of an `AffinityConcatLinear` instance. -/
structure AffinityConcatLinear.Cfg where
  fcW : List (List ℝ)
  fcB : List ℝ

/-- `AffinityConcatLinear.forward`: concatenate the raw embeddings and
apply the single dense head, then `squeeze()`. -/
def AffinityConcatLinear.forward (c : AffinityConcatLinear.Cfg)
    (mol_emb prot_emb : List (List ℝ)) (r : RNG) : Tensor × RNG :=
  let cat := List.zipWith (fun a b => a ++ b) mol_emb prot_emb
  let out := cat.map (matVec c.fcW c.fcB)
  ((Tensor.ofMat out).squeeze, r)

/-! ## Small concrete instances (used to instantiate the theorems) -/

/-- A concrete RNG stream: keep for the first two draws, drop afterwards. -/
def rngKK : RNG := ⟨fun n => n < 2, 0⟩

/-- A concrete RNG stream that always keeps. -/
def rngT : RNG := ⟨fun _ => true, 0⟩

/-- A tiny `SimpleConcat` instance (all feature sizes 1). -/
def cSC : SimpleConcat.Cfg := ⟨[[1, 1]], [0], [[1]], [0], [[1]], [0], relu⟩

/-- A tiny `SeparateConcat` instance. -/
def cSep : SeparateConcat.Cfg := ⟨[[1]], [0], [[1]], [0], relu, [[1, 1]], [0]⟩

/-- A tiny `AffinityEmbedConcat` instance. -/
def cAEC : AffinityEmbedConcat.Cfg := ⟨[[1]], [0], [[1]], [0], relu, [[1, 1]], [0]⟩

/-- A tiny `AffinityCoembedInner` instance with `latent_size = 1`. -/
def cACI : AffinityCoembedInner.Cfg := ⟨1, [[1]], [0], [[1]], [0], relu⟩

/-- A tiny `AffinityConcatLinear` instance. -/
def cACL : AffinityConcatLinear.Cfg := ⟨[[1, 1]], [0]⟩

/-- A tiny `SimpleCosine` instance. -/
def cSCos : SimpleCosine.Cfg := ⟨[[1]], [0], [[1]], [0], relu, MetricKind.cosine⟩

/-- A tiny `CosineBatchNorm` instance with `latent_size = 1`. -/
def cCBN : CosineBatchNorm.Cfg :=
  ⟨1, [[1]], [0], [[1]], [0], [1], [0], [1], [0], relu, MetricKind.cosine⟩

/-- Freshly initialized running statistics for `cCBN`. -/
def sCBN : CosineBatchNorm.State := ⟨⟨[0], [1]⟩, ⟨[0], [1]⟩⟩

/-- Weights of a tiny LSTM direction (`hidden = 1`, input size 1 or 2). -/
def wL1 : LSTMWeights := ⟨[[1], [1], [1], [1]], [[1], [1], [1], [1]], [0, 0, 0, 0], [0, 0, 0, 0]⟩

/-- A tiny `LSTMCosine` instance: one bidirectional layer of hidden size 1,
so the protein projector takes the `2 * 1 * 1`-long concatenated hidden state. -/
def cLSTM : LSTMCosine.Cfg := ⟨1, [[1]], [0], [⟨wL1, wL1⟩], [[1, 1]], [0], relu⟩

/-- A tiny `DeepCosine` instance (all feature sizes 1). -/
def cDeep : DeepCosine.Cfg := ⟨[[1]], [0], [[1]], [0], [[1]], [0], relu⟩

-- (end of definitions)

/-! ## Helper lemmas -/

theorem sumSq_nonneg (x : List ℝ) : 0 ≤ sumSq x := by
  induction x with
  | nil => simp [sumSq]
  | cons a t ih =>
    simp only [sumSq, List.map_cons, List.sum_cons]
    have := mul_self_nonneg a
    simpa [sumSq] using add_nonneg this ih

theorem l2norm_nonneg (x : List ℝ) : 0 ≤ l2norm x := Real.sqrt_nonneg _

theorem dotL_eq_sum_range (x y : List ℝ) :
    dotL x y = ∑ i ∈ Finset.range (min x.length y.length), x.getD i 0 * y.getD i 0 := by
  induction x generalizing y with
  | nil => simp [dotL]
  | cons a t ih =>
    cases y with
    | nil => simp [dotL]
    | cons b u =>
      simp only [dotL, List.zipWith_cons_cons, List.sum_cons, List.length_cons,
        Nat.succ_min_succ, Finset.sum_range_succ']
      simp only [List.getD_cons_succ, List.getD_cons_zero]
      rw [← dotL, ih, add_comm]

theorem sumSq_eq_sum_range (x : List ℝ) :
    sumSq x = ∑ i ∈ Finset.range x.length, x.getD i 0 * x.getD i 0 := by
  induction x with
  | nil => simp [sumSq]
  | cons a t ih =>
    simp only [sumSq, List.map_cons, List.sum_cons, List.length_cons, Finset.sum_range_succ']
    simp only [List.getD_cons_succ, List.getD_cons_zero]
    rw [← sumSq, ih, add_comm]

theorem sum_range_getD_sq_le (x : List ℝ) (m : ℕ) (h : m ≤ x.length) :
    ∑ i ∈ Finset.range m, x.getD i 0 * x.getD i 0 ≤ sumSq x := by
  rw [sumSq_eq_sum_range]
  exact Finset.sum_le_sum_of_subset_of_nonneg
    (Finset.range_subset.mpr h) (fun i _ _ => mul_self_nonneg _)

/-- Cauchy–Schwarz for the truncating dot product. -/
theorem dotL_sq_le (x y : List ℝ) : dotL x y * dotL x y ≤ sumSq x * sumSq y := by
  have hcs := Finset.sum_mul_sq_le_sq_mul_sq (Finset.range (min x.length y.length))
    (fun i => x.getD i 0) (fun i => y.getD i 0)
  have hx := sum_range_getD_sq_le x (min x.length y.length) (Nat.min_le_left _ _)
  have hy := sum_range_getD_sq_le y (min x.length y.length) (Nat.min_le_right _ _)
  have hxn : (0:ℝ) ≤ ∑ i ∈ Finset.range (min x.length y.length), x.getD i 0 * x.getD i 0 :=
    Finset.sum_nonneg (fun i _ => mul_self_nonneg _)
  have hyn : (0:ℝ) ≤ ∑ i ∈ Finset.range (min x.length y.length), y.getD i 0 * y.getD i 0 :=
    Finset.sum_nonneg (fun i _ => mul_self_nonneg _)
  have h2 : dotL x y * dotL x y ≤
      (∑ i ∈ Finset.range (min x.length y.length), x.getD i 0 * x.getD i 0) *
      (∑ i ∈ Finset.range (min x.length y.length), y.getD i 0 * y.getD i 0) := by
    rw [dotL_eq_sum_range]
    calc (∑ i ∈ Finset.range (min x.length y.length), x.getD i 0 * y.getD i 0) *
          (∑ i ∈ Finset.range (min x.length y.length), x.getD i 0 * y.getD i 0)
        = (∑ i ∈ Finset.range (min x.length y.length), x.getD i 0 * y.getD i 0) ^ 2 := by ring
      _ ≤ (∑ i ∈ Finset.range (min x.length y.length), x.getD i 0 ^ 2) *
          (∑ i ∈ Finset.range (min x.length y.length), y.getD i 0 ^ 2) := hcs
      _ = (∑ i ∈ Finset.range (min x.length y.length), x.getD i 0 * x.getD i 0) *
          (∑ i ∈ Finset.range (min x.length y.length), y.getD i 0 * y.getD i 0) := by
            simp [pow_two]
  exact h2.trans (mul_le_mul hx hy hyn (sumSq_nonneg x))

theorem abs_dotL_le (x y : List ℝ) : |dotL x y| ≤ l2norm x * l2norm y := by
  have h1 : |dotL x y| = Real.sqrt (dotL x y * dotL x y) := by
    rw [show dotL x y * dotL x y = dotL x y ^ 2 by ring, Real.sqrt_sq_eq_abs]
  rw [h1, l2norm, l2norm, ← Real.sqrt_mul (sumSq_nonneg x)]
  exact Real.sqrt_le_sqrt (dotL_sq_le x y)

theorem cosEps_pos : (0:ℝ) < cosEps := by norm_num [cosEps]

/-- The cosine-similarity formula is bounded by 1 in absolute value. -/
theorem abs_cosineSim1_le_one (x y : List ℝ) : |cosineSim1 x y| ≤ 1 := by
  have hden : (0:ℝ) < max (l2norm x * l2norm y) cosEps :=
    lt_of_lt_of_le cosEps_pos (le_max_right _ _)
  rw [cosineSim1, abs_div, abs_of_pos hden, div_le_one hden]
  exact (abs_dotL_le x y).trans (le_max_left _ _)

theorem sigmoid_pos (x : ℝ) : 0 < sigmoid x := by
  have h := Real.exp_pos (-x)
  have hd : (0:ℝ) < 1 + Real.exp (-x) := by linarith
  exact div_pos one_pos hd

theorem sigmoid_lt_one (x : ℝ) : sigmoid x < 1 := by
  have h := Real.exp_pos (-x)
  have hd : (0:ℝ) < 1 + Real.exp (-x) := by linarith
  rw [sigmoid, div_lt_one hd]
  linarith

/-- Every element of a `zipWith` is the image of a pair of elements. -/
theorem mem_zipWith_imp {α β γ : Type} (f : α → β → γ) :
    ∀ (x : List α) (y : List β) (v : γ), v ∈ List.zipWith f x y →
      ∃ a b, a ∈ x ∧ b ∈ y ∧ v = f a b := by
  intro x
  induction x with
  | nil => intro y v h; simp at h
  | cons a t ih =>
    intro y v h
    cases y with
    | nil => simp at h
    | cons b u =>
      simp only [List.zipWith_cons_cons, List.mem_cons] at h
      rcases h with h | h
      · exact ⟨a, b, List.mem_cons_self a t, List.mem_cons_self b u, h⟩
      · rcases ih u v h with ⟨p, q, hp, hq, hv⟩
        exact ⟨p, q, List.mem_cons_of_mem _ hp, List.mem_cons_of_mem _ hq, hv⟩

/-! ## Claims: C2, C5, C9 -/

/-- C2 (code_bug exhibit): on the batch `x1 = [[0],[3]], x2 = [[0],[4]]`
of two one-dimensional samples, `Euclidean.forward` returns the full
2-by-2 pairwise distance matrix (shape `[2, 2]`, row-major data
`[0, 4, 3, 1]`), not the 2-element per-sample distance vector `[0, 1]`
that the specified per-sample contract would give. -/
theorem euclidean_cdist_matrix_at_input :
    (Euclidean.forward [[0], [3]] [[0], [4]] rngT).1.shape = [2, 2] ∧
    (Euclidean.forward [[0], [3]] [[0], [4]] rngT).1.data = [0, 4, 3, 1] ∧
    (Euclidean.forward [[0], [3]] [[0], [4]] rngT).1.shape ≠ [2] := by
  refine ⟨rfl, ?_, by decide⟩
  have h16 : Real.sqrt 16 = 4 := by
    rw [show (16 : ℝ) = 4 ^ 2 by norm_num, Real.sqrt_sq (by norm_num : (0:ℝ) ≤ 4)]
  have h9 : Real.sqrt 9 = 3 := by
    rw [show (9 : ℝ) = 3 ^ 2 by norm_num, Real.sqrt_sq (by norm_num : (0:ℝ) ≤ 3)]
  simp [Euclidean.forward, euclideanFwdT, cdistM, dist2, sumSq, Tensor.ofMat, dotL]
  norm_num [h16, h9]

/-- C5: `SquaredCosine.forward` is `Cosine.forward` squared elementwise,
and `SquaredEuclidean.forward` is `Euclidean.forward` squared
elementwise: same shape, data mapped through `v * v`. -/
theorem squared_metrics_are_squares (x1 x2 : List (List ℝ)) (r : RNG) :
    ((SquaredCosine.forward x1 x2 r).1.data =
        ((Cosine.forward x1 x2 r).1.data).map (fun v => v * v) ∧
      (SquaredCosine.forward x1 x2 r).1.shape = (Cosine.forward x1 x2 r).1.shape) ∧
    ((SquaredEuclidean.forward x1 x2 r).1.data =
        ((Euclidean.forward x1 x2 r).1.data).map (fun v => v * v) ∧
      (SquaredEuclidean.forward x1 x2 r).1.shape = (Euclidean.forward x1 x2 r).1.shape) := by
  refine ⟨⟨rfl, ?_⟩, ?_, ?_⟩
  · simp [SquaredCosine.forward, Cosine.forward, squaredCosineFwdT, cosineFwdT, Tensor.ofVec]
  · simp [SquaredEuclidean.forward, Euclidean.forward, squaredEuclideanFwdT, euclideanFwdT,
      Tensor.ofMat, List.map_flatten]
  · simp only [SquaredEuclidean.forward, Euclidean.forward, squaredEuclideanFwdT,
      euclideanFwdT, Tensor.ofMat, List.length_map]
    cases cdistM x1 x2 with
    | nil => rfl
    | cons h t => simp

/-- C9: `SeparateConcat`'s constructor ignores its `distance_metric`
argument: for any two argument values (recognized or not, including
`none`) construction succeeds, yields the same instance, and the two
instances' forward passes agree on every input. -/
theorem separateConcat_ignores_distance_metric
    (molW : List (List ℝ)) (molB : List ℝ) (protW : List (List ℝ)) (protB : List ℝ)
    (act : ℝ → ℝ) (fcW : List (List ℝ)) (fcB : List ℝ) (dm1 dm2 : Option String)
    (mol prot : List (List ℝ)) (r : RNG) :
    SeparateConcat.init molW molB protW protB act fcW fcB dm1 =
      SeparateConcat.init molW molB protW protB act fcW fcB dm2 ∧
    (SeparateConcat.init molW molB protW protB act fcW fcB dm1).isSome = true ∧
    Option.map (fun c => SeparateConcat.forward c mol prot r)
        (SeparateConcat.init molW molB protW protB act fcW fcB dm1) =
      Option.map (fun c => SeparateConcat.forward c mol prot r)
        (SeparateConcat.init molW molB protW protB act fcW fcB dm2) :=
  ⟨rfl, rfl, rfl⟩

/-! ## Claims: C6, C7 -/

/-- C6: for equal-batch-size inputs, every entry of `Cosine.forward`
lies in `[-1, 1]` and every entry of `SquaredCosine.forward` lies in
`[0, 1]`. -/
theorem cosine_output_bounds (x1 x2 : List (List ℝ)) (r : RNG)
    (h : x1.length = x2.length) :
    (∀ v ∈ (Cosine.forward x1 x2 r).1.data, -1 ≤ v ∧ v ≤ 1) ∧
    (∀ v ∈ (SquaredCosine.forward x1 x2 r).1.data, 0 ≤ v ∧ v ≤ 1) := by
  constructor
  · intro v hv
    simp only [Cosine.forward, cosineFwdT, Tensor.ofVec] at hv
    rcases mem_zipWith_imp cosineSim1 x1 x2 v hv with ⟨a, b, _, _, hvab⟩
    subst hvab
    exact abs_le.mp (abs_cosineSim1_le_one a b)
  · intro v hv
    simp only [SquaredCosine.forward, squaredCosineFwdT, Tensor.ofVec, List.mem_map] at hv
    rcases hv with ⟨u, hu, huv⟩
    rcases mem_zipWith_imp cosineSim1 x1 x2 u hu with ⟨a, b, _, _, huab⟩
    subst huv; subst huab
    refine ⟨mul_self_nonneg _, ?_⟩
    have h1 := abs_cosineSim1_le_one a b
    calc cosineSim1 a b * cosineSim1 a b
        = |cosineSim1 a b| * |cosineSim1 a b| := (abs_mul_abs_self _).symm
      _ ≤ 1 := mul_le_one₀ h1 (abs_nonneg _) h1

/-- C6 witness: the theorem instantiated at the concrete one-sample
batches `[[1]]`, `[[1]]`. -/
theorem cosine_output_bounds_witness :
    ([[(1:ℝ)]] : List (List ℝ)).length = ([[(1:ℝ)]] : List (List ℝ)).length ∧
    ((∀ v ∈ (Cosine.forward [[(1:ℝ)]] [[(1:ℝ)]] rngT).1.data, -1 ≤ v ∧ v ≤ 1) ∧
     (∀ v ∈ (SquaredCosine.forward [[(1:ℝ)]] [[(1:ℝ)]] rngT).1.data, 0 ≤ v ∧ v ≤ 1)) :=
  ⟨rfl, cosine_output_bounds [[(1:ℝ)]] [[(1:ℝ)]] rngT rfl⟩

/-- C7: every entry produced by the sigmoid-terminated modules
`SimpleConcat` and `SeparateConcat` lies strictly between 0 and 1. -/
theorem sigmoid_modules_open_unit (c1 : SimpleConcat.Cfg) (c2 : SeparateConcat.Cfg)
    (mol prot : List (List ℝ)) (r : RNG) :
    (∀ v ∈ (SimpleConcat.forward c1 mol prot r).1.data, 0 < v ∧ v < 1) ∧
    (∀ v ∈ (SeparateConcat.forward c2 mol prot r).1.data, 0 < v ∧ v < 1) := by
  constructor
  · intro v hv
    simp only [SimpleConcat.forward, Tensor.ofMat, Tensor.squeeze, List.mem_flatten,
      List.mem_map] at hv
    rcases hv with ⟨row, ⟨w, _, hrow⟩, hv⟩
    rw [← hrow] at hv
    rcases List.mem_map.mp hv with ⟨u, _, huv⟩
    rw [← huv]
    exact ⟨sigmoid_pos u, sigmoid_lt_one u⟩
  · intro v hv
    simp only [SeparateConcat.forward, Tensor.ofMat, Tensor.squeeze, List.mem_flatten,
      List.mem_map] at hv
    rcases hv with ⟨row, ⟨w, _, hrow⟩, hv⟩
    rw [← hrow] at hv
    rcases List.mem_map.mp hv with ⟨u, _, huv⟩
    rw [← huv]
    exact ⟨sigmoid_pos u, sigmoid_lt_one u⟩

/-- C7 witness: the theorem applied to the tiny concrete instances on a
one-sample batch; the inspected entry is the single output value. -/
theorem sigmoid_modules_open_unit_witness :
    (0 < (SimpleConcat.forward cSC [[1]] [[1]] rngT).1.data.getD 0 0 ∧
      (SimpleConcat.forward cSC [[1]] [[1]] rngT).1.data.getD 0 0 < 1) ∧
    (0 < (SeparateConcat.forward cSep [[1]] [[1]] rngT).1.data.getD 0 0 ∧
      (SeparateConcat.forward cSep [[1]] [[1]] rngT).1.data.getD 0 0 < 1) :=
  ⟨(sigmoid_modules_open_unit cSC cSep [[1]] [[1]] rngT).1 _ (List.mem_cons_self _ _),
   (sigmoid_modules_open_unit cSC cSep [[1]] [[1]] rngT).2 _ (List.mem_cons_self _ _)⟩

/-! ## Claim C4 -/

theorem lookup_isSome_iff_mem_keys (dm : String) (l : List (String × MetricKind)) :
    (l.lookup dm).isSome = true ↔ dm ∈ l.map Prod.fst := by
  induction l with
  | nil => simp [List.lookup]
  | cons kv t ih =>
    cases hc : dm == kv.1 with
    | true =>
      have he : dm = kv.1 := eq_of_beq hc
      simp [List.lookup, hc, he]
    | false =>
      have hne : dm ≠ kv.1 := fun he => by simp [he] at hc
      simp [List.lookup, hc, ih, hne]

theorem lookupMetric_isSome_iff (dm : String) :
    (lookupMetric dm).isSome = true ↔
      dm ∈ ["Cosine", "SquaredCosine", "Euclidean", "SquaredEuclidean"] := by
  rw [lookupMetric, lookup_isSome_iff_mem_keys]
  simp [DISTANCE_METRICS]

/-- C4 (amended): the two constructors that actually look their
`distance_metric` argument up in `DISTANCE_METRICS` — `SimpleCosine` and
`CosineBatchNorm` — succeed exactly on the four recognized names and
fail with a lookup error (before any forward call) on every other name;
`SeparateConcat`'s constructor also accepts a `distance_metric`
argument but ignores it and succeeds for every value. -/
theorem metric_name_checked_at_construction
    (latent : Nat) (molW : List (List ℝ)) (molB : List ℝ)
    (protW : List (List ℝ)) (protB : List ℝ)
    (molGamma molBeta protGamma protBeta : List ℝ)
    (fcW : List (List ℝ)) (fcB : List ℝ) (act : ℝ → ℝ) (dm : String)
    (dmo : Option String) :
    ((SimpleCosine.init molW molB protW protB act dm).isSome = true ↔
      dm ∈ ["Cosine", "SquaredCosine", "Euclidean", "SquaredEuclidean"]) ∧
    ((CosineBatchNorm.init latent molW molB protW protB
        molGamma molBeta protGamma protBeta act dm).isSome = true ↔
      dm ∈ ["Cosine", "SquaredCosine", "Euclidean", "SquaredEuclidean"]) ∧
    (SeparateConcat.init molW molB protW protB act fcW fcB dmo).isSome = true := by
  have h2 := lookupMetric_isSome_iff dm
  refine ⟨?_, ?_, rfl⟩
  · cases hl : lookupMetric dm with
    | none => rw [hl] at h2; rw [SimpleCosine.init, hl]; simpa using h2
    | some m => rw [hl] at h2; rw [SimpleCosine.init, hl]; simpa using h2
  · cases hl : lookupMetric dm with
    | none => rw [hl] at h2; rw [CosineBatchNorm.init, hl]; simpa using h2
    | some m => rw [hl] at h2; rw [CosineBatchNorm.init, hl]; simpa using h2

/-- C4 counterexample: the unrecognized name `Bogus` is accepted by
`SeparateConcat`'s constructor (which takes a `distance_metric`
argument), refuting the claim that every such constructor fails on an
unrecognized name; for contrast, `SimpleCosine`'s constructor does fail
on it. -/
theorem separateConcat_accepts_unknown_metric_name :
    (SeparateConcat.init [[1]] [0] [[1]] [0] relu [[1, 1]] [0] (some ("Bogus"))).isSome
      = true ∧
    ("Bogus" : String) ∉ ["Cosine", "SquaredCosine", "Euclidean", "SquaredEuclidean"] ∧
    (SimpleCosine.init [[1]] [0] [[1]] [0] relu ("Bogus")).isSome = false :=
  ⟨rfl, by decide, by decide⟩

/-- C4 witness: the amended theorem instantiated at concrete layer
parameters, the name `Cosine` and the ignored argument `none`. -/
theorem metric_name_checked_at_construction_witness :
    ((SimpleCosine.init [[1]] [0] [[1]] [0] relu ("Cosine")).isSome = true ↔
      ("Cosine" : String) ∈ ["Cosine", "SquaredCosine", "Euclidean", "SquaredEuclidean"]) ∧
    ((CosineBatchNorm.init 1 [[1]] [0] [[1]] [0] [1] [0] [1] [0] relu ("Cosine")).isSome
        = true ↔
      ("Cosine" : String) ∈ ["Cosine", "SquaredCosine", "Euclidean", "SquaredEuclidean"]) ∧
    (SeparateConcat.init [[1]] [0] [[1]] [0] relu [[1, 1]] [0] none).isSome = true :=
  metric_name_checked_at_construction 1 [[1]] [0] [[1]] [0] [1] [0] [1] [0]
    [[1, 1]] [0] relu ("Cosine") none

/-! ## Claim C3 -/

/-- C3 (amended): every module other than `CosineBatchNorm` and
`DeepCosine` is a stateless, parameter-only function: its forward pass
returns the global RNG unchanged, and its output does not depend on the
RNG, so two forward passes of the same instance on the same input
produce identical output and leave no state behind.  (`CosineBatchNorm`
updates its BatchNorm running statistics and `DeepCosine` consumes RNG
draws in its dropout layers, so those two are excluded; see the
counterexample.) -/
theorem stateless_modules
    (x1 x2 mol prot : List (List ℝ)) (prot3 : List (List (List ℝ)))
    (cCos : SimpleCosine.Cfg) (cL : LSTMCosine.Cfg) (c1 : SimpleConcat.Cfg)
    (c2 : SeparateConcat.Cfg) (c3 : AffinityEmbedConcat.Cfg)
    (c4 : AffinityCoembedInner.Cfg) (c5 : AffinityConcatLinear.Cfg)
    (r r2 : RNG) :
    ((Cosine.forward x1 x2 r).2 = r ∧
      (Cosine.forward x1 x2 r).1 = (Cosine.forward x1 x2 r2).1) ∧
    ((SquaredCosine.forward x1 x2 r).2 = r ∧
      (SquaredCosine.forward x1 x2 r).1 = (SquaredCosine.forward x1 x2 r2).1) ∧
    ((Euclidean.forward x1 x2 r).2 = r ∧
      (Euclidean.forward x1 x2 r).1 = (Euclidean.forward x1 x2 r2).1) ∧
    ((SquaredEuclidean.forward x1 x2 r).2 = r ∧
      (SquaredEuclidean.forward x1 x2 r).1 = (SquaredEuclidean.forward x1 x2 r2).1) ∧
    ((SimpleCosine.forward cCos mol prot r).2 = r ∧
      (SimpleCosine.forward cCos mol prot r).1 = (SimpleCosine.forward cCos mol prot r2).1) ∧
    ((LSTMCosine.forward cL mol prot3 r).2 = r ∧
      (LSTMCosine.forward cL mol prot3 r).1 = (LSTMCosine.forward cL mol prot3 r2).1) ∧
    ((SimpleConcat.forward c1 mol prot r).2 = r ∧
      (SimpleConcat.forward c1 mol prot r).1 = (SimpleConcat.forward c1 mol prot r2).1) ∧
    ((SeparateConcat.forward c2 mol prot r).2 = r ∧
      (SeparateConcat.forward c2 mol prot r).1 = (SeparateConcat.forward c2 mol prot r2).1) ∧
    ((AffinityEmbedConcat.forward c3 mol prot r).2 = r ∧
      (AffinityEmbedConcat.forward c3 mol prot r).1 =
        (AffinityEmbedConcat.forward c3 mol prot r2).1) ∧
    ((AffinityCoembedInner.forward c4 mol prot r).2 = r ∧
      (AffinityCoembedInner.forward c4 mol prot r).1 =
        (AffinityCoembedInner.forward c4 mol prot r2).1) ∧
    ((AffinityConcatLinear.forward c5 mol prot r).2 = r ∧
      (AffinityConcatLinear.forward c5 mol prot r).1 =
        (AffinityConcatLinear.forward c5 mol prot r2).1) :=
  ⟨⟨rfl, rfl⟩, ⟨rfl, rfl⟩, ⟨rfl, rfl⟩, ⟨rfl, rfl⟩, ⟨rfl, rfl⟩, ⟨rfl, rfl⟩,
   ⟨rfl, rfl⟩, ⟨rfl, rfl⟩, ⟨rfl, rfl⟩, ⟨rfl, rfl⟩, ⟨rfl, rfl⟩⟩

/-- C3 counterexample: with fixed weights and a fixed seed (the concrete
draw stream of `rngKK`), two successive training-mode forward passes of
the same `DeepCosine` instance on the same input produce different
outputs (the dropout layers consume fresh draws on the second call); and
a single training-mode forward pass of `CosineBatchNorm` changes the
running-mean state it leaves behind. -/
theorem repeated_forward_not_identical :
    (DeepCosine.forward cDeep true [[1]] [[1]] rngKK).1.data ≠
      (DeepCosine.forward cDeep true [[1]] [[1]]
        (DeepCosine.forward cDeep true [[1]] [[1]] rngKK).2).1.data ∧
    (CosineBatchNorm.forward cCBN sCBN true [[1], [3]] [[1], [3]] rngT).2.1.molBN.runMean ≠
      sCBN.molBN.runMean := by
  constructor
  · have h16 : Real.sqrt 16 = 4 := by
      rw [show (16 : ℝ) = 4 ^ 2 by norm_num, Real.sqrt_sq (by norm_num : (0:ℝ) ≤ 4)]
    simp [DeepCosine.forward, dropoutRows, dropoutVec, cDeep, rngKK, projRow, matVec,
      dotL, relu, cosineSim1, l2norm, sumSq, Tensor.ofVec, cosEps, List.range_succ]
    norm_num [h16, Real.sqrt_one, Real.sqrt_zero]
  · simp [CosineBatchNorm.forward, batchNorm1d, cCBN, sCBN, projRow, matVec, dotL, relu,
      meanL, colGetD, unbiasedVar, bnMomentum, List.range_succ]
    norm_num

/-! ## Shape and indexing lemmas -/

theorem zipWith_map_same {α β γ δ : Type} (f : β → γ → δ) (g : α → β) (h : α → γ) :
    ∀ l : List α, List.zipWith f (l.map g) (l.map h) = l.map (fun x => f (g x) (h x)) := by
  intro l
  induction l with
  | nil => rfl
  | cons a t ih => simp [ih]

theorem flatten_map_singleton {α β : Type} (f : α → β) :
    ∀ l : List α, (l.map (fun x => [f x])).flatten = l.map f := by
  intro l
  induction l with
  | nil => rfl
  | cons a t ih => simp [ih]

theorem flatten_length_const {α : Type} (L : ℕ) :
    ∀ rows : List (List α), (∀ r ∈ rows, r.length = L) →
      rows.flatten.length = rows.length * L := by
  intro rows
  induction rows with
  | nil => intro _; simp
  | cons r t ih =>
    intro h
    have hr : r.length = L := h r (List.mem_cons_self r t)
    have ht := ih (fun s hs => h s (List.mem_cons_of_mem r hs))
    simp [hr, ht, Nat.succ_mul, Nat.add_comm]

theorem headD_range_map {α : Type} (d : α) (f : ℕ → α) (L : ℕ) (h : 0 < L) :
    (((List.range L).map f).headD d) = f 0 := by
  cases L with
  | zero => exact absurd h (by simp)
  | succ m => simp [List.range_succ_eq_map]

theorem flatten_getD_const (L : ℕ) :
    ∀ (rows : List (List ℝ)) (i j : ℕ), (∀ r ∈ rows, r.length = L) → j < L →
      rows.flatten.getD (i * L + j) 0 = (rows.getD i []).getD j 0 := by
  intro rows
  induction rows with
  | nil => intro i j _ _; simp [List.getD_nil]
  | cons r t ih =>
    intro i j h hj
    have hr : r.length = L := h r (List.mem_cons_self r t)
    have ht : ∀ s ∈ t, s.length = L := fun s hs => h s (List.mem_cons_of_mem r hs)
    cases i with
    | zero =>
      have hjr : j < r.length := by rw [hr]; exact hj
      simp only [List.flatten_cons, Nat.zero_mul, Nat.zero_add]
      rw [List.getD_append _ _ _ _ hjr, List.getD_cons_zero]
    | succ i =>
      have hidx : (i + 1) * L + j = r.length + (i * L + j) := by
        rw [hr, Nat.succ_mul]; omega
      simp only [List.flatten_cons, hidx]
      rw [List.getD_append_right _ _ _ _ (Nat.le_add_right _ _), Nat.add_sub_cancel_left,
        List.getD_cons_succ]
      exact ih i j ht hj

theorem range_map_getD (v : List ℝ) :
    (List.range v.length).map (fun k => v.getD k 0) = v := by
  induction v with
  | nil => rfl
  | cons a t ih =>
    simp only [List.length_cons, List.range_succ_eq_map, List.map_cons, List.map_map,
      List.getD_cons_zero]
    have hc : ((fun k => (a :: t).getD k 0) ∘ Nat.succ) = fun k => t.getD k 0 := by
      funext k
      simp [List.getD_cons_succ]
    rw [hc, ih]

theorem dropoutRows_length (training : Bool) :
    ∀ (xs : List (List ℝ)) (r : RNG), (dropoutRows training xs r).1.length = xs.length := by
  intro xs
  induction xs with
  | nil => intro r; rfl
  | cons x t ih => intro r; simp [dropoutRows, ih]

theorem batchNorm1d_length (numFeatures : Nat) (γ β : List ℝ) (training : Bool)
    (s : BNState) (xs : List (List ℝ)) :
    (batchNorm1d numFeatures γ β training s xs).1.length = xs.length := by
  cases training <;> simp [batchNorm1d]

theorem applyMetric_head (mk : MetricKind) (x1 x2 : List (List ℝ)) (n : ℕ)
    (h1 : x1.length = n) (h2 : x2.length = n) :
    (applyMetric mk x1 x2).shape.head? = some n := by
  cases mk <;>
    simp [applyMetric, cosineFwdT, squaredCosineFwdT, euclideanFwdT, squaredEuclideanFwdT,
      Tensor.ofVec, Tensor.ofMat, cdistM, h1, h2]

theorem filter_ne_one_head (n : ℕ) (t : List ℕ) (h : n ≠ 1) :
    (List.filter (fun d => d != 1) (n :: t)).head? = some n := by
  simp [List.filter_cons, h]

theorem cosine_head (x1 x2 : List (List ℝ)) (r : RNG) (n : ℕ)
    (h1 : x1.length = n) (h2 : x2.length = n) :
    (Cosine.forward x1 x2 r).1.shape.head? = some n := by
  simp [Cosine.forward, cosineFwdT, Tensor.ofVec, List.length_zipWith, h1, h2]

theorem squaredCosine_head (x1 x2 : List (List ℝ)) (r : RNG) (n : ℕ)
    (h1 : x1.length = n) (h2 : x2.length = n) :
    (SquaredCosine.forward x1 x2 r).1.shape.head? = some n := by
  simp [SquaredCosine.forward, squaredCosineFwdT, Tensor.ofVec, List.length_zipWith, h1, h2]

theorem euclidean_head (x1 x2 : List (List ℝ)) (r : RNG) (n : ℕ)
    (h1 : x1.length = n) :
    (Euclidean.forward x1 x2 r).1.shape.head? = some n := by
  simp [Euclidean.forward, euclideanFwdT, Tensor.ofMat, cdistM, h1]

theorem squaredEuclidean_head (x1 x2 : List (List ℝ)) (r : RNG) (n : ℕ)
    (h1 : x1.length = n) :
    (SquaredEuclidean.forward x1 x2 r).1.shape.head? = some n := by
  simp [SquaredEuclidean.forward, squaredEuclideanFwdT, Tensor.ofMat, cdistM, h1]

theorem simpleConcat_head (c : SimpleConcat.Cfg) (mol prot : List (List ℝ)) (r : RNG) (n : ℕ)
    (h1 : mol.length = n) (h2 : prot.length = n) (hn : n ≠ 1) :
    (SimpleConcat.forward c mol prot r).1.shape.head? = some n := by
  have hlen : (List.zipWith (fun a b : List ℝ => a ++ b) mol prot).length = n := by
    simp [List.length_zipWith, h1, h2]
  simp only [SimpleConcat.forward, Tensor.ofMat, Tensor.squeeze, List.length_map, hlen]
  exact filter_ne_one_head n _ hn

theorem separateConcat_head (c : SeparateConcat.Cfg) (mol prot : List (List ℝ)) (r : RNG)
    (n : ℕ) (h1 : mol.length = n) (h2 : prot.length = n) (hn : n ≠ 1) :
    (SeparateConcat.forward c mol prot r).1.shape.head? = some n := by
  have hlen : (List.zipWith (fun a b : List ℝ => a ++ b)
      (mol.map (projRow c.molW c.molB c.act))
      (prot.map (projRow c.protW c.protB c.act))).length = n := by
    simp [List.length_zipWith, h1, h2]
  simp only [SeparateConcat.forward, Tensor.ofMat, Tensor.squeeze, List.length_map, hlen]
  exact filter_ne_one_head n _ hn

theorem affinityEmbedConcat_head (c : AffinityEmbedConcat.Cfg) (mol prot : List (List ℝ))
    (r : RNG) (n : ℕ) (h1 : mol.length = n) (h2 : prot.length = n) (hn : n ≠ 1) :
    (AffinityEmbedConcat.forward c mol prot r).1.shape.head? = some n := by
  have hlen : (List.zipWith (fun a b : List ℝ => a ++ b)
      (mol.map (projRow c.molW c.molB c.act))
      (prot.map (projRow c.protW c.protB c.act))).length = n := by
    simp [List.length_zipWith, h1, h2]
  simp only [AffinityEmbedConcat.forward, Tensor.ofMat, Tensor.squeeze, List.length_map, hlen]
  exact filter_ne_one_head n _ hn

theorem affinityConcatLinear_head (c : AffinityConcatLinear.Cfg) (mol prot : List (List ℝ))
    (r : RNG) (n : ℕ) (h1 : mol.length = n) (h2 : prot.length = n) (hn : n ≠ 1) :
    (AffinityConcatLinear.forward c mol prot r).1.shape.head? = some n := by
  have hlen : (List.zipWith (fun a b : List ℝ => a ++ b) mol prot).length = n := by
    simp [List.length_zipWith, h1, h2]
  simp only [AffinityConcatLinear.forward, Tensor.ofMat, Tensor.squeeze, List.length_map, hlen]
  exact filter_ne_one_head n _ hn

theorem simpleCosine_head (c : SimpleCosine.Cfg) (mol prot : List (List ℝ)) (r : RNG) (n : ℕ)
    (h1 : mol.length = n) (h2 : prot.length = n) :
    (SimpleCosine.forward c mol prot r).1.shape.head? = some n := by
  simp only [SimpleCosine.forward]
  exact applyMetric_head _ _ _ n (by simp [h1]) (by simp [h2])

theorem cosineBatchNorm_head (c : CosineBatchNorm.Cfg) (st : CosineBatchNorm.State)
    (training : Bool) (mol prot : List (List ℝ)) (r : RNG) (n : ℕ)
    (h1 : mol.length = n) (h2 : prot.length = n) :
    (CosineBatchNorm.forward c st training mol prot r).1.shape.head? = some n := by
  simp only [CosineBatchNorm.forward]
  exact applyMetric_head _ _ _ n (by simp [batchNorm1d_length, h1])
    (by simp [batchNorm1d_length, h2])

theorem deepCosine_head (c : DeepCosine.Cfg) (training : Bool) (mol prot : List (List ℝ))
    (r : RNG) (n : ℕ) (h1 : mol.length = n) (h2 : prot.length = n) :
    (DeepCosine.forward c training mol prot r).1.shape.head? = some n := by
  simp [DeepCosine.forward, Tensor.ofVec, List.length_zipWith, dropoutRows_length, h1, h2]

theorem lstmCosine_head (c : LSTMCosine.Cfg) (mol : List (List ℝ))
    (prot : List (List (List ℝ))) (r : RNG) (n : ℕ)
    (h1 : mol.length = n) (h2 : prot.length = n) :
    (LSTMCosine.forward c mol prot r).1.shape.head? = some n := by
  simp [LSTMCosine.forward, Tensor.ofVec, List.length_zipWith, h1, h2]

theorem affinityCoembedInner_head (c : AffinityCoembedInner.Cfg) (mol prot : List (List ℝ))
    (r : RNG) (n : ℕ) (h1 : mol.length = n) (h2 : prot.length = n)
    (hmw : c.molW.length = c.latent) (hmb : c.molB.length = c.latent)
    (hpw : c.protW.length = c.latent) (hpb : c.protB.length = c.latent)
    (hL : 0 < c.latent) (hn : n ≠ 1) :
    (AffinityCoembedInner.forward c mol prot r).1.shape.head? = some n := by
  have hrowm : ∀ rr ∈ mol.map (projRow c.molW c.molB c.act), rr.length = c.latent := by
    intro rr hm
    rcases List.mem_map.mp hm with ⟨x, hx, hfx⟩
    rw [← hfx]
    simp [projRow, matVec, List.length_zipWith, hmw, hmb]
  have hrowp : ∀ rr ∈ prot.map (projRow c.protW c.protB c.act), rr.length = c.latent := by
    intro rr hm
    rcases List.mem_map.mp hm with ⟨x, hx, hfx⟩
    rw [← hfx]
    simp [projRow, matVec, List.length_zipWith, hpw, hpb]
  have hm : ((mol.map (projRow c.molW c.molB c.act)).flatten).length = n * c.latent := by
    rw [flatten_length_const c.latent _ hrowm, List.length_map, h1]
  have hp : ((prot.map (projRow c.protW c.protB c.act)).flatten).length = n * c.latent := by
    rw [flatten_length_const c.latent _ hrowp, List.length_map, h2]
  have hd1 : n * c.latent / (1 * c.latent) = n := by
    rw [one_mul]
    exact Nat.mul_div_cancel n hL
  have hd2 : n * c.latent / (c.latent * 1) = n := by
    rw [mul_one]
    exact Nat.mul_div_cancel n hL
  simp only [AffinityCoembedInner.forward, Tensor.ofMat3, Tensor.squeeze, bmm, view3,
    List.length_zipWith, List.length_map, List.length_range, hm, hp, hd1, hd2, min_self]
  exact filter_ne_one_head n _ hn

/-! ## Claim C1 -/

/-- C1 (amended): for every module, on valid input batches of `n`
samples each, the returned tensor's leading dimension has size `n`; for
the five modules whose forward ends in `.squeeze()` (`SimpleConcat`,
`SeparateConcat`, `AffinityEmbedConcat`, `AffinityCoembedInner`,
`AffinityConcatLinear`) this holds whenever `n ≠ 1`, the one-sample
batch yielding a 0-dimensional tensor instead (see the
counterexample). -/
theorem output_leading_dim_is_batch_size
    (n : ℕ) (x1 x2 mol prot : List (List ℝ)) (prot3 : List (List (List ℝ)))
    (cCos : SimpleCosine.Cfg) (cBN : CosineBatchNorm.Cfg) (st : CosineBatchNorm.State)
    (cL : LSTMCosine.Cfg) (cD : DeepCosine.Cfg) (c1 : SimpleConcat.Cfg)
    (c2 : SeparateConcat.Cfg) (c3 : AffinityEmbedConcat.Cfg)
    (c4 : AffinityCoembedInner.Cfg) (c5 : AffinityConcatLinear.Cfg)
    (training : Bool) (r : RNG)
    (h1 : x1.length = n) (h2 : x2.length = n)
    (hm : mol.length = n) (hp : prot.length = n) (hp3 : prot3.length = n)
    (hmw : c4.molW.length = c4.latent) (hmb : c4.molB.length = c4.latent)
    (hpw : c4.protW.length = c4.latent) (hpb : c4.protB.length = c4.latent)
    (hL : 0 < c4.latent) :
    (Cosine.forward x1 x2 r).1.shape.head? = some n ∧
    (SquaredCosine.forward x1 x2 r).1.shape.head? = some n ∧
    (Euclidean.forward x1 x2 r).1.shape.head? = some n ∧
    (SquaredEuclidean.forward x1 x2 r).1.shape.head? = some n ∧
    (SimpleCosine.forward cCos mol prot r).1.shape.head? = some n ∧
    (CosineBatchNorm.forward cBN st training mol prot r).1.shape.head? = some n ∧
    (LSTMCosine.forward cL mol prot3 r).1.shape.head? = some n ∧
    (DeepCosine.forward cD training mol prot r).1.shape.head? = some n ∧
    (n ≠ 1 → (SimpleConcat.forward c1 mol prot r).1.shape.head? = some n) ∧
    (n ≠ 1 → (SeparateConcat.forward c2 mol prot r).1.shape.head? = some n) ∧
    (n ≠ 1 → (AffinityEmbedConcat.forward c3 mol prot r).1.shape.head? = some n) ∧
    (n ≠ 1 → (AffinityCoembedInner.forward c4 mol prot r).1.shape.head? = some n) ∧
    (n ≠ 1 → (AffinityConcatLinear.forward c5 mol prot r).1.shape.head? = some n) :=
  ⟨cosine_head x1 x2 r n h1 h2,
   squaredCosine_head x1 x2 r n h1 h2,
   euclidean_head x1 x2 r n h1,
   squaredEuclidean_head x1 x2 r n h1,
   simpleCosine_head cCos mol prot r n hm hp,
   cosineBatchNorm_head cBN st training mol prot r n hm hp,
   lstmCosine_head cL mol prot3 r n hm hp3,
   deepCosine_head cD training mol prot r n hm hp,
   fun hn => simpleConcat_head c1 mol prot r n hm hp hn,
   fun hn => separateConcat_head c2 mol prot r n hm hp hn,
   fun hn => affinityEmbedConcat_head c3 mol prot r n hm hp hn,
   fun hn => affinityCoembedInner_head c4 mol prot r n hm hp hmw hmb hpw hpb hL hn,
   fun hn => affinityConcatLinear_head c5 mol prot r n hm hp hn⟩

/-- C1 counterexample: on a valid one-sample batch, `SimpleConcat`'s
forward returns a 0-dimensional tensor (`squeeze()` removes the size-1
batch dimension), so its shape has no leading entry and in particular
the leading dimension is not 1 as the unrestricted claim requires. -/
theorem simpleConcat_singleton_no_leading_dim :
    (SimpleConcat.forward cSC [[1]] [[1]] rngT).1.shape.head? = none ∧
    ¬ (SimpleConcat.forward cSC [[1]] [[1]] rngT).1.shape.head? = some 1 :=
  ⟨rfl, by decide⟩

/-- C1 witness: the amended theorem instantiated at the tiny concrete
instances on two-sample batches, all hypotheses discharged. -/
theorem output_leading_dim_is_batch_size_witness :
    (Cosine.forward [[1], [1]] [[1], [1]] rngT).1.shape.head? = some 2 ∧
    (SquaredCosine.forward [[1], [1]] [[1], [1]] rngT).1.shape.head? = some 2 ∧
    (Euclidean.forward [[1], [1]] [[1], [1]] rngT).1.shape.head? = some 2 ∧
    (SquaredEuclidean.forward [[1], [1]] [[1], [1]] rngT).1.shape.head? = some 2 ∧
    (SimpleCosine.forward cSCos [[1], [1]] [[1], [1]] rngT).1.shape.head? = some 2 ∧
    (CosineBatchNorm.forward cCBN sCBN true [[1], [1]] [[1], [1]] rngT).1.shape.head?
      = some 2 ∧
    (LSTMCosine.forward cLSTM [[1], [1]] [[[1]], [[1]]] rngT).1.shape.head? = some 2 ∧
    (DeepCosine.forward cDeep true [[1], [1]] [[1], [1]] rngT).1.shape.head? = some 2 ∧
    (SimpleConcat.forward cSC [[1], [1]] [[1], [1]] rngT).1.shape.head? = some 2 ∧
    (SeparateConcat.forward cSep [[1], [1]] [[1], [1]] rngT).1.shape.head? = some 2 ∧
    (AffinityEmbedConcat.forward cAEC [[1], [1]] [[1], [1]] rngT).1.shape.head? = some 2 ∧
    (AffinityCoembedInner.forward cACI [[1], [1]] [[1], [1]] rngT).1.shape.head? = some 2 ∧
    (AffinityConcatLinear.forward cACL [[1], [1]] [[1], [1]] rngT).1.shape.head? = some 2 := by
  obtain ⟨a1, a2, a3, a4, a5, a6, a7, a8, b1, b2, b3, b4, b5⟩ :=
    output_leading_dim_is_batch_size 2 [[1], [1]] [[1], [1]] [[1], [1]] [[1], [1]]
      [[[1]], [[1]]] cSCos cCBN sCBN cLSTM cDeep cSC cSep cAEC cACI cACL true rngT
      rfl rfl rfl rfl rfl rfl rfl rfl rfl (by decide)
  exact ⟨a1, a2, a3, a4, a5, a6, a7, a8, b1 (by decide), b2 (by decide), b3 (by decide),
    b4 (by decide), b5 (by decide)⟩

/-! ## Claim C10 -/

theorem bmm_view_shape (n L : ℕ) (hL : 0 < L) (hn : 0 < n) (dm dp : List ℝ)
    (hm : dm.length = n * L) (hp : dp.length = n * L) :
    (Tensor.ofMat3 (bmm (view3 (dm.length / (1 * L)) 1 L dm)
      (view3 (dp.length / (L * 1)) L 1 dp))).shape = [n, 1, 1] := by
  have hq1 : dm.length / (1 * L) = n := by
    rw [one_mul, hm]; exact Nat.mul_div_cancel n hL
  have hq2 : dp.length / (L * 1) = n := by
    rw [mul_one, hp]; exact Nat.mul_div_cancel n hL
  rw [hq1, hq2]
  have hr1 : List.range 1 = [0] := rfl
  simp only [view3, bmm, zipWith_map_same matMulL, Tensor.ofMat3, List.length_map,
    List.length_range]
  rw [headD_range_map [] _ n hn]
  simp only [hr1, List.map_cons, List.map_nil, matMulL, numCols, List.length_map,
    List.length_cons, List.length_nil, List.headD_cons]
  rw [headD_range_map [] _ L hL]
  simp

/-- C10: each of the five modules whose forward ends in `.squeeze()`
returns, on a one-sample batch, a 0-dimensional (scalar) tensor — the
shape is empty, not `[1]` — because `squeeze` drops the size-1 batch
dimension together with the size-1 feature dimension. -/
theorem squeeze_modules_scalar_on_singleton
    (c1 : SimpleConcat.Cfg) (c2 : SeparateConcat.Cfg) (c3 : AffinityEmbedConcat.Cfg)
    (c4 : AffinityCoembedInner.Cfg) (c5 : AffinityConcatLinear.Cfg)
    (m p : List ℝ) (r : RNG)
    (h1w : c1.fc3W.length = 1) (h1b : c1.fc3B.length = 1)
    (h2w : c2.fcW.length = 1) (h2b : c2.fcB.length = 1)
    (h3w : c3.fcW.length = 1) (h3b : c3.fcB.length = 1)
    (h4mw : c4.molW.length = c4.latent) (h4mb : c4.molB.length = c4.latent)
    (h4pw : c4.protW.length = c4.latent) (h4pb : c4.protB.length = c4.latent)
    (hL : 0 < c4.latent)
    (h5w : c5.fcW.length = 1) (h5b : c5.fcB.length = 1) :
    (SimpleConcat.forward c1 [m] [p] r).1.shape = [] ∧
    (SeparateConcat.forward c2 [m] [p] r).1.shape = [] ∧
    (AffinityEmbedConcat.forward c3 [m] [p] r).1.shape = [] ∧
    (AffinityCoembedInner.forward c4 [m] [p] r).1.shape = [] ∧
    (AffinityConcatLinear.forward c5 [m] [p] r).1.shape = [] := by
  refine ⟨?_, ?_, ?_, ?_, ?_⟩
  · simp [SimpleConcat.forward, Tensor.ofMat, Tensor.squeeze, matVec,
      List.length_zipWith, h1w, h1b, List.filter_cons]
  · simp [SeparateConcat.forward, Tensor.ofMat, Tensor.squeeze, matVec,
      List.length_zipWith, h2w, h2b, List.filter_cons]
  · simp [AffinityEmbedConcat.forward, Tensor.ofMat, Tensor.squeeze, matVec,
      List.length_zipWith, h3w, h3b, List.filter_cons]
  · have hflatm : ((([m].map (projRow c4.molW c4.molB c4.act))).flatten).length
        = 1 * c4.latent := by
      simp [projRow, matVec, List.length_zipWith, h4mw, h4mb]
    have hflatp : ((([p].map (projRow c4.protW c4.protB c4.act))).flatten).length
        = 1 * c4.latent := by
      simp [projRow, matVec, List.length_zipWith, h4pw, h4pb]
    simp only [AffinityCoembedInner.forward, Tensor.squeeze]
    rw [bmm_view_shape 1 c4.latent hL one_pos _ _ hflatm hflatp]
    rfl
  · simp [AffinityConcatLinear.forward, Tensor.ofMat, Tensor.squeeze, matVec,
      List.length_zipWith, h5w, h5b, List.filter_cons]

/-- C10 witness: the theorem instantiated at the tiny concrete instances
on the one-sample batches `[[1]]`, `[[1]]`. -/
theorem squeeze_modules_scalar_on_singleton_witness :
    (SimpleConcat.forward cSC [[1]] [[1]] rngT).1.shape = [] ∧
    (SeparateConcat.forward cSep [[1]] [[1]] rngT).1.shape = [] ∧
    (AffinityEmbedConcat.forward cAEC [[1]] [[1]] rngT).1.shape = [] ∧
    (AffinityCoembedInner.forward cACI [[1]] [[1]] rngT).1.shape = [] ∧
    (AffinityConcatLinear.forward cACL [[1]] [[1]] rngT).1.shape = [] :=
  squeeze_modules_scalar_on_singleton cSC cSep cAEC cACI cACL [1] [1] rngT
    rfl rfl rfl rfl rfl rfl rfl rfl rfl rfl (by decide) rfl rfl

/-! ## Claim C8 -/

theorem view_row_eq (L : ℕ) (rows : List (List ℝ)) (hrows : ∀ s ∈ rows, s.length = L)
    (i : ℕ) (hi : i < rows.length) :
    (List.range L).map (fun k => rows.flatten.getD (i * L + k) 0) = rows.getD i [] := by
  have hmem : rows.getD i [] ∈ rows := by
    rw [List.getD_eq_getElem rows [] hi]
    exact List.getElem_mem hi
  have hlen : (rows.getD i []).length = L := hrows _ hmem
  have hstep : (List.range L).map (fun k => rows.flatten.getD (i * L + k) 0)
      = (List.range L).map (fun k => (rows.getD i []).getD k 0) := by
    apply List.map_congr_left
    intro k hk
    exact flatten_getD_const L rows i k hrows (List.mem_range.mp hk)
  rw [hstep, ← hlen, range_map_getD]

theorem matMul_view_entry (L : ℕ) (hL : 0 < L) (molF protF : List ℝ) (i : ℕ) :
    matMulL ((List.range 1).map (fun j =>
        (List.range L).map (fun k => molF.getD ((i * 1 + j) * L + k) 0)))
      ((List.range L).map (fun j =>
        (List.range 1).map (fun k => protF.getD ((i * L + j) * 1 + k) 0)))
    = [[dotL ((List.range L).map (fun k => molF.getD (i * L + k) 0))
            ((List.range L).map (fun j => protF.getD (i * L + j) 0))]] := by
  have hr1 : List.range 1 = [0] := rfl
  simp only [hr1, List.map_cons, List.map_nil, matMulL]
  have hcols : numCols ((List.range L).map (fun j => [protF.getD ((i * L + j) * 1 + 0) 0]))
      = 1 := by
    rw [numCols, headD_range_map [] _ L hL]
    rfl
  rw [hcols, hr1]
  simp only [List.map_cons, List.map_nil, List.map_map]
  have hrow : (List.range L).map (fun k => molF.getD ((i * 1 + 0) * L + k) 0)
      = (List.range L).map (fun k => molF.getD (i * L + k) 0) := by
    apply List.map_congr_left
    intro k _
    norm_num
  have hcol : (List.range L).map
        ((fun nrow => nrow.getD 0 0) ∘ fun j => [protF.getD ((i * L + j) * 1 + 0) 0])
      = (List.range L).map (fun j => protF.getD (i * L + j) 0) := by
    apply List.map_congr_left
    intro j _
    simp
  rw [hrow, hcol]

/-- C8: for a valid `AffinityCoembedInner` instance (both projectors of
width `latent_size > 0`) and equal-size input batches, entry `i` of the
forward output is the inner product of the projected molecule vector `i`
and the projected protein vector `i`. -/
theorem coembed_inner_entry (c : AffinityCoembedInner.Cfg) (mol prot : List (List ℝ))
    (r : RNG) (n i : ℕ) (h1 : mol.length = n) (h2 : prot.length = n)
    (hmw : c.molW.length = c.latent) (hmb : c.molB.length = c.latent)
    (hpw : c.protW.length = c.latent) (hpb : c.protB.length = c.latent)
    (hL : 0 < c.latent) (hi : i < n) :
    (AffinityCoembedInner.forward c mol prot r).1.data.getD i 0 =
      dotL (projRow c.molW c.molB c.act (mol.getD i []))
           (projRow c.protW c.protB c.act (prot.getD i [])) := by
  have hrowm : ∀ s ∈ mol.map (projRow c.molW c.molB c.act), s.length = c.latent := by
    intro s hs
    rcases List.mem_map.mp hs with ⟨x, hx, hfx⟩
    rw [← hfx]
    simp [projRow, matVec, List.length_zipWith, hmw, hmb]
  have hrowp : ∀ s ∈ prot.map (projRow c.protW c.protB c.act), s.length = c.latent := by
    intro s hs
    rcases List.mem_map.mp hs with ⟨x, hx, hfx⟩
    rw [← hfx]
    simp [projRow, matVec, List.length_zipWith, hpw, hpb]
  have hmf : ((mol.map (projRow c.molW c.molB c.act)).flatten).length = n * c.latent := by
    rw [flatten_length_const c.latent _ hrowm, List.length_map, h1]
  have hpf : ((prot.map (projRow c.protW c.protB c.act)).flatten).length = n * c.latent := by
    rw [flatten_length_const c.latent _ hrowp, List.length_map, h2]
  have hq1 : ((mol.map (projRow c.molW c.molB c.act)).flatten).length / (1 * c.latent)
      = n := by
    rw [hmf, one_mul]; exact Nat.mul_div_cancel n hL
  have hq2 : ((prot.map (projRow c.protW c.protB c.act)).flatten).length / (c.latent * 1)
      = n := by
    rw [hpf, mul_one]; exact Nat.mul_div_cancel n hL
  simp only [AffinityCoembedInner.forward, Tensor.squeeze, Tensor.ofMat3, bmm, view3,
    hq1, hq2]
  rw [zipWith_map_same matMulL, List.map_map]
  have hentry : (List.range n).map ((fun m => m.flatten) ∘ (fun i2 =>
        matMulL ((List.range 1).map (fun j =>
            (List.range c.latent).map (fun k =>
              ((mol.map (projRow c.molW c.molB c.act)).flatten).getD
                ((i2 * 1 + j) * c.latent + k) 0)))
          ((List.range c.latent).map (fun j =>
            (List.range 1).map (fun k =>
              ((prot.map (projRow c.protW c.protB c.act)).flatten).getD
                ((i2 * c.latent + j) * 1 + k) 0)))))
      = (List.range n).map (fun i2 =>
          [dotL ((List.range c.latent).map (fun k =>
              ((mol.map (projRow c.molW c.molB c.act)).flatten).getD (i2 * c.latent + k) 0))
            ((List.range c.latent).map (fun j =>
              ((prot.map (projRow c.protW c.protB c.act)).flatten).getD
                (i2 * c.latent + j) 0))]) := by
    apply List.map_congr_left
    intro j _
    simp only [Function.comp_apply]
    rw [matMul_view_entry c.latent hL _ _ j]
    simp
  rw [hentry, flatten_map_singleton]
  rw [List.getD_eq_getElem _ _ (by simp [hi]), List.getElem_map, List.getElem_range]
  rw [view_row_eq c.latent _ hrowm i (by simp [h1, hi]),
    view_row_eq c.latent _ hrowp i (by simp [h2, hi])]
  congr 1
  · rw [List.getD_eq_getElem _ [] (by simp [h1, hi]), List.getElem_map]
    exact congrArg _ (List.getD_eq_getElem mol [] (by rw [h1]; exact hi)).symm
  · rw [List.getD_eq_getElem _ [] (by simp [h2, hi]), List.getElem_map]
    exact congrArg _ (List.getD_eq_getElem prot [] (by rw [h2]; exact hi)).symm

/-- C8 witness: the theorem instantiated at the tiny concrete instance
`cACI` on the one-sample batches `[[1]]`, `[[1]]`, entry 0. -/
theorem coembed_inner_entry_witness :
    (AffinityCoembedInner.forward cACI [[1]] [[1]] rngT).1.data.getD 0 0 =
      dotL (projRow cACI.molW cACI.molB cACI.act (([[(1:ℝ)]] : List (List ℝ)).getD 0 []))
           (projRow cACI.protW cACI.protB cACI.act
             (([[(1:ℝ)]] : List (List ℝ)).getD 0 [])) :=
  coembed_inner_entry cACI [[1]] [[1]] rngT 1 0 rfl rfl rfl rfl rfl rfl
    (by decide) (by decide)
